import Mathlib

/-!
Shallow embedding of the correlation / anomaly-detection engine of
`railway-logs-debugger` (src/services: metric summarizers, status
bucketizer, window builder, anomaly detector).

JavaScript numbers are modelled as exact rationals (`ℚ`); timestamps are
epoch seconds as `ℚ`.  An unparsable date (`new Date(...)` yielding `NaN`)
is modelled as `none : Option _`; the source's `NaN` propagation through
arithmetic and comparisons is reproduced explicitly at each site where it
matters (comparisons against `NaN` are false in JS).
-/

namespace Railway

/-- `MetricValue { ts: number; value: number }` (epoch-second timestamp). -/
structure MetricValue where
  ts : ℚ
  value : ℚ
  deriving DecidableEq, Repr

/-- `HttpDurationSample { ts, p50, p90, p95, p99 }`. -/
structure HttpDurationSample where
  ts : ℚ
  p50 : ℚ
  p90 : ℚ
  p95 : ℚ
  p99 : ℚ
  deriving DecidableEq, Repr

/-- `LogEntry { timestamp: string; message: string; severity?: string }`.
The source stores the timestamp as an ISO-8601 string and parses it inline
with `new Date(l.timestamp).getTime() / 1000`; we model the timestamp by its
parse result: `some t` for a parsable string denoting epoch-seconds `t`,
`none` for an unparsable one (JS `NaN`). -/
structure LogEntry where
  ts : Option ℚ
  message : String
  severity : Option String
  deriving DecidableEq, Repr

/-- `MetricSummary` as produced by `summarizeMetric`. -/
structure MetricSummary where
  measurement : String
  avg : ℚ
  min : ℚ
  max : ℚ
  latest : ℚ
  dataPoints : ℕ
  values : List MetricValue
  deriving DecidableEq, Repr

/-- `HttpLatencySummary` as produced by `summarizePercentile`. -/
structure HttpLatencySummary where
  avg : ℚ
  min : ℚ
  max : ℚ
  latest : ℚ
  dataPoints : ℕ
  deriving DecidableEq, Repr

/-- `Math.min(...nums)` over a spread array.  Both call sites in the source
guard against the empty array, so the `[]` branch (JS would give `Infinity`)
is unreachable there; we return `0` in that dead branch. -/
def jsMin : List ℚ → ℚ
  | [] => 0
  | x :: xs => xs.foldl min x

/-- `Math.max(...nums)` over a spread array; `[]` branch unreachable at the
call sites (guarded by a length check). -/
def jsMax : List ℚ → ℚ
  | [] => 0
  | x :: xs => xs.foldl max x

/-- `summarizeMetric(measurement, values)` from `health-collector`:
empty input yields the all-zero summary; otherwise avg/min/max over the
`value` fields, and `latest` is the last element in arrival order
(`nums[nums.length - 1]`). -/
def summarizeMetric (measurement : String) (values : List MetricValue) :
    MetricSummary :=
  if values.isEmpty then
    { measurement := measurement, avg := 0, min := 0, max := 0, latest := 0
      dataPoints := 0, values := [] }
  else
    let nums := values.map (fun v => v.value)
    let sum := nums.foldl (fun a b => a + b) 0
    { measurement := measurement
      avg := sum / nums.length
      min := jsMin nums
      max := jsMax nums
      latest := nums.getLastD 0
      dataPoints := nums.length
      values := values }

/-- The four percentile selectors of `summarizePercentile`. -/
inductive PercKey where
  | p50
  | p90
  | p95
  | p99
  deriving DecidableEq, Repr

/-- Field selection `s[key]` for a percentile selector. -/
def percGet (s : HttpDurationSample) : PercKey → ℚ
  | .p50 => s.p50
  | .p90 => s.p90
  | .p95 => s.p95
  | .p99 => s.p99

/-- `summarizePercentile(samples, key)`. -/
def summarizePercentile (samples : List HttpDurationSample) (key : PercKey) :
    HttpLatencySummary :=
  if samples.isEmpty then
    { avg := 0, min := 0, max := 0, latest := 0, dataPoints := 0 }
  else
    let values := samples.map (fun s => percGet s key)
    let sum := values.foldl (fun a b => a + b) 0
    { avg := sum / values.length
      min := jsMin values
      max := jsMax values
      latest := values.getLastD 0
      dataPoints := values.length }

/-- `HttpStatusGroup { statusCode: number; samples: {ts, value}[] }`. -/
structure HttpStatusGroup where
  statusCode : ℕ
  samples : List MetricValue
  deriving DecidableEq, Repr

/-- `HttpMetricsResponse`; `samples` is `httpDurationMetrics.samples`. -/
structure HttpMetricsResponse where
  samples : List HttpDurationSample
  httpMetricsGroupedByStatus : List HttpStatusGroup
  deriving DecidableEq, Repr

/-- One element of the flattened `statusCodeSamples` stream. -/
structure StatusCodeSample where
  ts : ℚ
  statusCode : ℕ
  count : ℚ
  deriving DecidableEq, Repr

/-- `HttpStatusBucket { bucket; count; codes }`.  The JS
`codes: Record<number, number>` object is modelled as an association list
(first-insertion key order; only contents matter to the properties below). -/
structure HttpStatusBucket where
  bucket : String
  count : ℚ
  codes : List (ℕ × ℚ)
  deriving DecidableEq, Repr

/-- The four latency summaries of `HttpMetrics.latency`. -/
structure HttpLatency where
  p50 : HttpLatencySummary
  p90 : HttpLatencySummary
  p95 : HttpLatencySummary
  p99 : HttpLatencySummary
  deriving DecidableEq, Repr

/-- `HttpMetrics` as produced by `summarizeHttpMetrics`. -/
structure HttpMetrics where
  latency : HttpLatency
  statusCodes : List HttpStatusBucket
  totalRequests : ℚ
  latencySamples : List HttpDurationSample
  statusCodeSamples : List StatusCodeSample
  deriving DecidableEq, Repr

/-- Bucket label: `` `${Math.floor(code / 100)}xx` ``. -/
def bucketLabel (code : ℕ) : String :=
  toString (code / 100) ++ "xx"

/-- The mutable per-bucket record held in the source's `bucketMap`. -/
structure BucketData where
  count : ℚ
  codes : List (ℕ × ℚ)
  deriving DecidableEq, Repr

/-- `entry.codes[code] = (entry.codes[code] || 0) + total`: bump the entry
for `code`, inserting it if absent. -/
def codesAdd : List (ℕ × ℚ) → ℕ → ℚ → List (ℕ × ℚ)
  | [], code, total => [(code, total)]
  | (c, v) :: rest, code, total =>
    if c = code then (c, v + total) :: rest
    else (c, v) :: codesAdd rest code total

/-- One loop iteration of the bucketizer on the insertion-ordered map:
if the label is absent the source inserts `{count: 0, codes: {}}` at the
end and then adds `total`; fused here into inserting the updated entry. -/
def bucketAdd : List (String × BucketData) → String → ℕ → ℚ →
    List (String × BucketData)
  | [], lab, code, total => [(lab, ⟨total, [(code, total)]⟩)]
  | (k, e) :: rest, lab, code, total =>
    if k = lab then (k, ⟨e.count + total, codesAdd e.codes code total⟩) :: rest
    else (k, e) :: bucketAdd rest lab code total

/-- `group.samples.reduce((sum, s) => sum + s.value, 0)`. -/
def sampleSum (ss : List MetricValue) : ℚ :=
  ss.foldl (fun s v => s + v.value) 0

/-- The bucketizer loop of `summarizeHttpMetrics` (a `Map` keyed by label,
preserving insertion order). -/
def bucketMapOf (groups : List HttpStatusGroup) : List (String × BucketData) :=
  groups.foldl
    (fun m g => bucketAdd m (bucketLabel g.statusCode) g.statusCode
      (sampleSum g.samples)) []

instance bucketLEDec :
    DecidableRel (fun a b : HttpStatusBucket => a.bucket ≤ b.bucket) :=
  fun a b => inferInstanceAs (Decidable (a.bucket ≤ b.bucket))

instance bucketLETotal :
    IsTotal HttpStatusBucket (fun a b => a.bucket ≤ b.bucket) :=
  ⟨fun a b => le_total a.bucket b.bucket⟩

instance bucketLETrans :
    IsTrans HttpStatusBucket (fun a b => a.bucket ≤ b.bucket) :=
  ⟨fun _ _ _ hab hbc => le_trans hab hbc⟩

/-- Total request count carried by the entries of a bucket map whose key is
`lab` (with nodup keys, the unique such entry's `count`). -/
def countOf (m : List (String × BucketData)) (lab : String) : ℚ :=
  ((m.filter (fun p => p.1 == lab)).map (fun p => p.2.count)).sum

/-- `statusCodes`: the map entries converted to buckets and sorted by label
(`localeCompare`, which on these ASCII labels is the code-point lexicographic
order, modelled by `String`'s linear order). -/
def statusCodesOf (groups : List HttpStatusGroup) : List HttpStatusBucket :=
  List.insertionSort (fun a b => a.bucket ≤ b.bucket)
    ((bucketMapOf groups).map (fun p => ⟨p.1, p.2.count, p.2.codes⟩))

/-- The running `totalRequests` accumulator. -/
def totalRequestsOf (groups : List HttpStatusGroup) : ℚ :=
  groups.foldl (fun t g => t + sampleSum g.samples) 0

/-- The flattened `statusCodeSamples` stream (nested push loops). -/
def statusCodeSamplesOf (groups : List HttpStatusGroup) :
    List StatusCodeSample :=
  groups.flatMap
    (fun g => g.samples.map (fun s => ⟨s.ts, g.statusCode, s.value⟩))

/-- `summarizeHttpMetrics(response)`. -/
def summarizeHttpMetrics (response : HttpMetricsResponse) : HttpMetrics :=
  { latency :=
      { p50 := summarizePercentile response.samples .p50
        p90 := summarizePercentile response.samples .p90
        p95 := summarizePercentile response.samples .p95
        p99 := summarizePercentile response.samples .p99 }
    statusCodes := statusCodesOf response.httpMetricsGroupedByStatus
    totalRequests := totalRequestsOf response.httpMetricsGroupedByStatus
    latencySamples := response.samples
    statusCodeSamples := statusCodeSamplesOf response.httpMetricsGroupedByStatus }

/-- `TimelineWindow`.  The source stores `start`/`end` as ISO strings
(`new Date(wStart * 1000).toISOString()`); we keep the numeric epoch-second
bounds the strings are rendered from, since every computation uses the
numeric bounds. -/
structure TimelineWindow where
  wStart : ℚ
  wEnd : ℚ
  cpu : ℚ
  memoryMb : ℚ
  p99 : ℚ
  requests : ℚ
  errors5xx : ℚ
  errorLogs : ℚ
  isAnomaly : Bool
  deriving DecidableEq, Repr

/-- The pre-filter for error logs: explicit `error`/`ERROR` severity or a
case-insensitive `error`/`exception`/`fatal` substring in the message. -/
def lowerChars (s : String) : List Char :=
  (s.map Char.toLower).data

/-- `pat` is a literal prefix of `cs`. -/
def charsMatchAt : List Char → List Char → Bool
  | [], _ => true
  | _ :: _, [] => false
  | p :: ps, c :: cs => p == c && charsMatchAt ps cs

/-- `pat` occurs as a contiguous substring of `cs` (JS `String.includes`). -/
def charsContain (pat : List Char) : List Char → Bool
  | [] => charsMatchAt pat []
  | c :: cs => charsMatchAt pat (c :: cs) || charsContain pat cs

/-- JS `s.toLowerCase().includes(pat)` for an already-lowercase `pat`. -/
def includesLower (s pat : String) : Bool :=
  charsContain pat.data (lowerChars s)

/-- The error-log predicate of the source's pre-filter. -/
def isErrorLog (l : LogEntry) : Bool :=
  l.severity == some "error" || l.severity == some "ERROR" ||
  includesLower l.message "error" || includesLower l.message "exception" ||
  includesLower l.message "fatal"

/-- `Math.min(20, Math.max(10, Math.ceil(rangeSec / (5 * 60))))`.
For `rangeSec > 0` the clamped value is in `[10, 20]`, so `toNat` is exact. -/
def bucketCountOf (rangeSec : ℤ) : ℕ :=
  (min 20 (max 10 ⌈(rangeSec : ℚ) / (5 * 60)⌉)).toNat

/-- `wStart = startSec + i * windowSec` for window index `i`. -/
def windowStartAt (startSec : ℤ) (windowSec : ℚ) (i : ℕ) : ℚ :=
  (startSec : ℚ) + (i : ℚ) * windowSec

/-- One iteration of the source's `for (const s of http.statusCodeSamples)`
loop, accumulating `(requests, errors5xx)`. -/
def statusStep (wStart wEnd : ℚ) (p : ℚ × ℚ) (s : StatusCodeSample) : ℚ × ℚ :=
  if wStart ≤ s.ts ∧ s.ts < wEnd then
    (p.1 + s.count,
     if 500 ≤ s.statusCode ∧ s.statusCode < 600 then p.2 + s.count else p.2)
  else p

/-- The body of the window loop: aggregate every signal for window `i`.
`errorLogs` is the already pre-filtered error-log list. -/
def windowAt (startSec : ℤ) (windowSec : ℚ) (cpuValues memoryValues : List MetricValue)
    (http : Option HttpMetrics) (errorLogs : List LogEntry) (i : ℕ) :
    TimelineWindow :=
  let wStart := windowStartAt startSec windowSec i
  let wEnd := wStart + windowSec
  let cpuInWindow := cpuValues.filter (fun v => decide (wStart ≤ v.ts ∧ v.ts < wEnd))
  let cpu : ℚ :=
    if 0 < cpuInWindow.length then
      (cpuInWindow.foldl (fun s v => s + v.value) (0 : ℚ)) / cpuInWindow.length
    else 0
  let memInWindow := memoryValues.filter (fun v => decide (wStart ≤ v.ts ∧ v.ts < wEnd))
  let memoryMb :=
    if 0 < memInWindow.length then
      jsMax (memInWindow.map (fun v => v.value)) * 1024
    else 0
  let hp : ℚ × ℚ × ℚ :=
    match http with
    | none => ((0 : ℚ), (0 : ℚ), (0 : ℚ))
    | some h =>
      let latInWindow :=
        h.latencySamples.filter (fun s => decide (wStart ≤ s.ts ∧ s.ts < wEnd))
      let p99 :=
        if 0 < latInWindow.length then
          jsMax (latInWindow.map (fun s => s.p99))
        else 0
      -- single pass accumulating (requests, errors5xx)
      let re := h.statusCodeSamples.foldl (statusStep wStart wEnd) (0, 0)
      (p99, re.1, re.2)
  -- `new Date(l.timestamp).getTime() / 1000` is `NaN` for an unparsable
  -- timestamp; both comparisons are then false, so the entry is excluded.
  let errorLogCount :=
    (errorLogs.filter (fun l =>
      match l.ts with
      | some t => decide (wStart ≤ t ∧ t < wEnd)
      | none => false)).length
  { wStart := wStart
    wEnd := wEnd
    cpu := cpu
    memoryMb := memoryMb
    p99 := hp.1
    requests := hp.2.1
    errors5xx := hp.2.2
    errorLogs := (errorLogCount : ℚ)
    isAnomaly := false }

/-- The five fields scanned by the anomaly detector (`metricsToCheck`). -/
inductive AKey where
  | cpu
  | memoryMb
  | p99
  | errors5xx
  | errorLogs
  deriving DecidableEq, Repr

/-- `w[key]` for an anomaly-detector field. -/
def keyVal (w : TimelineWindow) : AKey → ℚ
  | .cpu => w.cpu
  | .memoryMb => w.memoryMb
  | .p99 => w.p99
  | .errors5xx => w.errors5xx
  | .errorLogs => w.errorLogs

/-- `["cpu", "memoryMb", "p99", "errors5xx", "errorLogs"]`. -/
def metricsToCheck : List AKey :=
  [.cpu, .memoryMb, .p99, .errors5xx, .errorLogs]

/-- `vals.reduce((a, b) => a + b, 0) / vals.length`.  For `vals = []` JS
yields `NaN`; here `0 / 0 = 0`.  The only consumer is the `stddev > 0` gate,
which is false for `NaN` exactly as `0 > 0` is false here. -/
def meanOf (vals : List ℚ) : ℚ :=
  vals.foldl (fun a b => a + b) 0 / vals.length

/-- Population variance `reduce((s, v) => s + (v - mean) ** 2, 0) / length`
(divide by `N`); same `[]` remark as `meanOf`. -/
def pvarianceOf (vals : List ℚ) : ℚ :=
  let mean := meanOf vals
  vals.foldl (fun s v => s + (v - mean) ^ 2) 0 / vals.length

/-- One pass of the detector for one field.  The source gates on
`stddev > 0` with `stddev = Math.sqrt(variance)` and flags windows with
`w[key] > mean + 2 * stddev`.  To stay inside `ℚ` the two square-root facts
are encoded equivalently (for `variance ≥ 0`, proved below):
`stddev > 0 ↔ variance > 0` and
`x > mean + 2·√variance ↔ (x > mean ∧ (x - mean)² > 4·variance)`. -/
def anomalyPass (ws : List TimelineWindow) (key : AKey) : List TimelineWindow :=
  let vals := ws.map (fun w => keyVal w key)
  let mean := meanOf vals
  let variance := pvarianceOf vals
  if 0 < variance then
    ws.map (fun w =>
      if mean < keyVal w key ∧ 4 * variance < (keyVal w key - mean) ^ 2 then
        { w with isAnomaly := true }
      else w)
  else ws

/-- The detector: the five in-place flagging passes over the window array. -/
def applyAnomalies (ws : List TimelineWindow) : List TimelineWindow :=
  metricsToCheck.foldl anomalyPass ws

/-- `buildCorrelationTimeline(startDate, endDate, cpuValues, memoryValues,
http, logs)`.  The date arguments are modelled by their parse results in
epoch seconds (`Math.floor(new Date(d).getTime() / 1000)`): `some s` when
the string parses, `none` when it does not (JS `NaN`).  In the `NaN` case
the source falls through every guard — `rangeSec = NaN`, `NaN <= 0` is
false, the loop bound `bucketCount = NaN` admits zero iterations, and the
detector's `stddev > 0` gate is false on `NaN` — and returns `[]`, which
the `none` branch reproduces. -/
def buildCorrelationTimeline (startP endP : Option ℤ)
    (cpuValues memoryValues : List MetricValue) (http : Option HttpMetrics)
    (logs : List LogEntry) : List TimelineWindow :=
  match startP, endP with
  | some startSec, some endSec =>
    let rangeSec := endSec - startSec
    if rangeSec ≤ 0 then []
    else
      let bucketCount := bucketCountOf rangeSec
      let windowSec : ℚ := (rangeSec : ℚ) / bucketCount
      let errorLogs := logs.filter isErrorLog
      let windows :=
        (List.range bucketCount).map
          (windowAt startSec windowSec cpuValues memoryValues http errorLogs)
      applyAnomalies windows
  | _, _ => []

/-- The `getD` default used to state per-index window properties. -/
def dummyWindow : TimelineWindow :=
  { wStart := 0, wEnd := 0, cpu := 0, memoryMb := 0, p99 := 0, requests := 0
    errors5xx := 0, errorLogs := 0, isAnomaly := false }

/-- Combined flag update: the detector only ever ORs `true` into
`isAnomaly`, so each pass acts as `setFlag` with the pass's flag bit. -/
def setFlag (w : TimelineWindow) (b : Bool) : TimelineWindow :=
  { w with isAnomaly := w.isAnomaly || b }

/-- The (sqrt-free) per-field flag decision of one detector pass, as a
function of the window list the statistics are computed over and the
window's field value `x`. -/
def flagB (ws : List TimelineWindow) (k : AKey) (x : ℚ) : Bool :=
  decide (0 < pvarianceOf (ws.map (fun w => keyVal w k))) &&
  (decide (meanOf (ws.map (fun w => keyVal w k)) < x) &&
    decide (4 * pvarianceOf (ws.map (fun w => keyVal w k)) <
      (x - meanOf (ws.map (fun w => keyVal w k))) ^ 2))

/-- The real-valued window width `rangeSec / bucketCount`. -/
def windowSecOf (s e : ℤ) : ℚ :=
  ((e - s : ℤ) : ℚ) / (bucketCountOf (e - s) : ℚ)

/-!
Specification-side per-window aggregates, written as the aggregation
postcondition (C4) words them; the theorems below prove the windows the
builder produces satisfy them.
-/

/-- Spec-side CPU aggregate: arithmetic mean of the CPU sample values with
timestamp in `[wStart, wEnd)`, `0` if none. -/
def specCpu (wStart wEnd : ℚ) (cpuValues : List MetricValue) : ℚ :=
  let inw := cpuValues.filter (fun v => decide (wStart ≤ v.ts ∧ v.ts < wEnd))
  if inw = [] then 0 else (inw.map (fun v => v.value)).sum / (inw.length : ℚ)

/-- Spec-side memory aggregate: `1024 ×` the maximum in-window memory
value, `0` if none. -/
def specMemoryMb (wStart wEnd : ℚ) (memoryValues : List MetricValue) : ℚ :=
  let inw := memoryValues.filter (fun v => decide (wStart ≤ v.ts ∧ v.ts < wEnd))
  if inw = [] then 0 else 1024 * jsMax (inw.map (fun v => v.value))

/-- Spec-side p99 aggregate: maximum in-window `p99`, `0` if none or if
HTTP data is absent. -/
def specP99 (wStart wEnd : ℚ) (http : Option HttpMetrics) : ℚ :=
  match http with
  | none => 0
  | some h =>
    let inw := h.latencySamples.filter (fun x => decide (wStart ≤ x.ts ∧ x.ts < wEnd))
    if inw = [] then 0 else jsMax (inw.map (fun x => x.p99))

/-- Spec-side request aggregate: sum of the in-window flattened status-code
sample counts. -/
def specRequests (wStart wEnd : ℚ) (http : Option HttpMetrics) : ℚ :=
  match http with
  | none => 0
  | some h =>
    ((h.statusCodeSamples.filter
      (fun x => decide (wStart ≤ x.ts ∧ x.ts < wEnd))).map (fun x => x.count)).sum

/-- Spec-side 5xx aggregate: an in-window sample's count contributes iff
`500 ≤ statusCode < 600`. -/
def specErrors5xx (wStart wEnd : ℚ) (http : Option HttpMetrics) : ℚ :=
  match http with
  | none => 0
  | some h =>
    ((h.statusCodeSamples.filter (fun x =>
      decide ((wStart ≤ x.ts ∧ x.ts < wEnd) ∧
        500 ≤ x.statusCode ∧ x.statusCode < 600))).map (fun x => x.count)).sum

/-! ### Shared helper lemmas -/

theorem foldl_add_eq (f : α → ℚ) :
    ∀ (l : List α) (a : ℚ), l.foldl (fun s v => s + f v) a = a + (l.map f).sum
  | [], a => by simp
  | x :: xs, a => by
    rw [List.foldl_cons, foldl_add_eq f xs, List.map_cons, List.sum_cons]
    ring

theorem foldl_add_eq0 :
    ∀ (l : List ℚ) (a : ℚ), l.foldl (fun s v => s + v) a = a + l.sum
  | [], a => by simp
  | x :: xs, a => by
    rw [List.foldl_cons, foldl_add_eq0 xs, List.sum_cons]
    ring

theorem foldl_min_le_init : ∀ (l : List ℚ) (x : ℚ), l.foldl min x ≤ x
  | [], _ => le_refl _
  | b :: l, x => le_trans (foldl_min_le_init l (min x b)) (min_le_left x b)

theorem foldl_min_le_mem :
    ∀ (l : List ℚ) (x a : ℚ), a ∈ l → l.foldl min x ≤ a
  | b :: l, x, a, h => by
    rcases List.mem_cons.mp h with rfl | h
    · exact le_trans (foldl_min_le_init l (min x a)) (min_le_right x a)
    · exact foldl_min_le_mem l (min x b) a h

theorem jsMin_le_mem (l : List ℚ) (a : ℚ) (h : a ∈ l) : jsMin l ≤ a := by
  match l, h with
  | x :: xs, h =>
    rcases List.mem_cons.mp h with rfl | h
    · exact foldl_min_le_init xs a
    · exact foldl_min_le_mem xs x a h

theorem init_le_foldl_max : ∀ (l : List ℚ) (x : ℚ), x ≤ l.foldl max x
  | [], _ => le_refl _
  | b :: l, x => le_trans (le_max_left x b) (init_le_foldl_max l (max x b))

theorem mem_le_foldl_max :
    ∀ (l : List ℚ) (x a : ℚ), a ∈ l → a ≤ l.foldl max x
  | b :: l, x, a, h => by
    rcases List.mem_cons.mp h with rfl | h
    · exact le_trans (le_max_right x a) (init_le_foldl_max l (max x a))
    · exact mem_le_foldl_max l (max x b) a h

theorem mem_le_jsMax (l : List ℚ) (a : ℚ) (h : a ∈ l) : a ≤ jsMax l := by
  match l, h with
  | x :: xs, h =>
    rcases List.mem_cons.mp h with rfl | h
    · exact init_le_foldl_max xs a
    · exact mem_le_foldl_max xs x a h

theorem mul_length_le_sum (c : ℚ) :
    ∀ (l : List ℚ), (∀ a ∈ l, c ≤ a) → c * l.length ≤ l.sum
  | [], _ => by simp
  | x :: xs, h => by
    have hx : c ≤ x := h x (List.mem_cons_self x xs)
    have hxs := mul_length_le_sum c xs (fun a ha => h a (List.mem_cons_of_mem x ha))
    simp only [List.length_cons, List.sum_cons, Nat.cast_succ]
    nlinarith

theorem sum_le_mul_length (c : ℚ) :
    ∀ (l : List ℚ), (∀ a ∈ l, a ≤ c) → l.sum ≤ c * l.length
  | [], _ => by simp
  | x :: xs, h => by
    have hx : x ≤ c := h x (List.mem_cons_self x xs)
    have hxs := sum_le_mul_length c xs (fun a ha => h a (List.mem_cons_of_mem x ha))
    simp only [List.length_cons, List.sum_cons, Nat.cast_succ]
    nlinarith

theorem getLastD_map_value :
    ∀ (l : List MetricValue) (h : l ≠ []),
      (l.map (fun v => v.value)).getLastD 0 = (l.getLast h).value
  | [v], _ => rfl
  | v :: w :: t, _ => by
    have := getLastD_map_value (w :: t) (List.cons_ne_nil w t)
    simpa [List.getLast_cons] using this

/-! ### C7: empty-input policy of the summarizers -/

/-- **C7.** For the empty input sequence, `summarizeMetric` and
`summarizePercentile` return summaries whose avg, min, max and latest are
all 0 with data-point count 0.  Both Lean functions are total, which models
the "never throws on any input" part of the contract. -/
theorem summarizers_empty_input_all_zero :
    (∀ measurement : String,
      summarizeMetric measurement [] =
        { measurement := measurement, avg := 0, min := 0, max := 0
          latest := 0, dataPoints := 0, values := [] }) ∧
    (∀ key : PercKey,
      summarizePercentile [] key =
        { avg := 0, min := 0, max := 0, latest := 0, dataPoints := 0 }) :=
  ⟨fun _ => rfl, fun _ => rfl⟩

/-! ### C8: non-empty summaries satisfy min ≤ avg ≤ max, min ≤ latest ≤ max -/

/-- **C8.** For every non-empty input, the `MetricSummary` produced by
`summarizeMetric` satisfies `min ≤ avg ≤ max` and `min ≤ latest ≤ max`,
where `latest` is the value of the sequence's last element in arrival
order. -/
theorem summarizeMetric_bounds (measurement : String)
    (values : List MetricValue) (hv : values ≠ []) :
    (summarizeMetric measurement values).min ≤ (summarizeMetric measurement values).avg ∧
    (summarizeMetric measurement values).avg ≤ (summarizeMetric measurement values).max ∧
    (summarizeMetric measurement values).min ≤ (summarizeMetric measurement values).latest ∧
    (summarizeMetric measurement values).latest ≤ (summarizeMetric measurement values).max ∧
    (summarizeMetric measurement values).latest = (values.getLast hv).value := by
  have hne : ¬values.isEmpty := by simpa [List.isEmpty_iff] using hv
  have hsum : (summarizeMetric measurement values) =
      { measurement := measurement
        avg := (values.map (fun v => v.value)).sum / (values.map (fun v => v.value)).length
        min := jsMin (values.map (fun v => v.value))
        max := jsMax (values.map (fun v => v.value))
        latest := (values.map (fun v => v.value)).getLastD 0
        dataPoints := (values.map (fun v => v.value)).length
        values := values } := by
    simp only [summarizeMetric, hne, if_false, Bool.false_eq_true, foldl_add_eq0]
    simp
  set nums := values.map (fun v => v.value) with hnums
  have hnumsne : nums ≠ [] := by
    simpa [hnums] using hv
  have hlenpos : (0 : ℚ) < nums.length := by
    have : 0 < nums.length := List.length_pos.mpr hnumsne
    exact_mod_cast this
  have hlast_mem : nums.getLastD 0 ∈ nums := by
    rw [List.getLastD_eq_getLast? , List.getLast?_eq_getLast nums hnumsne]
    · exact List.getLast_mem hnumsne
  have hminavg : jsMin nums ≤ nums.sum / nums.length := by
    rw [le_div_iff₀ hlenpos]
    exact mul_length_le_sum _ nums (fun a ha => jsMin_le_mem nums a ha)
  have havgmax : nums.sum / nums.length ≤ jsMax nums := by
    rw [div_le_iff₀ hlenpos]
    exact sum_le_mul_length _ nums (fun a ha => mem_le_jsMax nums a ha)
  refine ⟨?_, ?_, ?_, ?_, ?_⟩
  · rw [hsum]; exact hminavg
  · rw [hsum]; exact havgmax
  · rw [hsum]; exact jsMin_le_mem nums _ hlast_mem
  · rw [hsum]; exact mem_le_jsMax nums _ hlast_mem
  · rw [hsum]; exact getLastD_map_value values hv

/-- Witness for C8 at a concrete one-sample input. -/
theorem summarizeMetric_bounds_witness :
    ([({ ts := 0, value := 5 } : MetricValue)] ≠ []) ∧
    ((summarizeMetric "CPU_USAGE" [{ ts := 0, value := 5 }]).min ≤
        (summarizeMetric "CPU_USAGE" [{ ts := 0, value := 5 }]).avg ∧
      (summarizeMetric "CPU_USAGE" [{ ts := 0, value := 5 }]).avg ≤
        (summarizeMetric "CPU_USAGE" [{ ts := 0, value := 5 }]).max ∧
      (summarizeMetric "CPU_USAGE" [{ ts := 0, value := 5 }]).min ≤
        (summarizeMetric "CPU_USAGE" [{ ts := 0, value := 5 }]).latest ∧
      (summarizeMetric "CPU_USAGE" [{ ts := 0, value := 5 }]).latest ≤
        (summarizeMetric "CPU_USAGE" [{ ts := 0, value := 5 }]).max ∧
      (summarizeMetric "CPU_USAGE" [{ ts := 0, value := 5 }]).latest =
        (([({ ts := 0, value := 5 } : MetricValue)]).getLast (by decide)).value) :=
  ⟨by decide, summarizeMetric_bounds "CPU_USAGE" [{ ts := 0, value := 5 }] (by decide)⟩

/-! ### C5: behaviour on malformed periods -/

/-- **C5.** Evaluating `buildCorrelationTimeline` at malformed periods: an
unparsable start date (`new Date` yields `NaN`, modelled `none`), an
unparsable end date, and a reversed period.  In every case the function
silently returns the empty window list through its ordinary `List` return
type; it has no error channel at all, so no explicit `InvalidInput`
condition is surfaced to the caller. -/
theorem malformed_period_returns_empty_list_silently :
    buildCorrelationTimeline none (some 3000) [] [] none [] = [] ∧
    buildCorrelationTimeline (some 0) none [] [] none [] = [] ∧
    buildCorrelationTimeline (some 3000) (some 0) [] [] none [] = [] :=
  ⟨rfl, rfl, rfl⟩

/-! ### C6: degenerate periods produce an empty window list, no error -/

/-- `anomalyPass` on the empty window list does nothing: the `[]` mean and
variance degenerate to `0` (JS: `NaN`) and the `stddev > 0` gate is false. -/
theorem anomalyPass_nil (key : AKey) : anomalyPass [] key = [] := by
  simp [anomalyPass, pvarianceOf, meanOf]

/-- **C6.** For every period whose parsed start is at or after its parsed
end, the Window Builder returns the empty window list (no error: the
function is total), and the Anomaly Detector applied to the empty list does
no flagging work and returns it unchanged. -/
theorem degenerate_period_empty_windows (s e : ℤ) (h : e ≤ s)
    (cpuValues memoryValues : List MetricValue) (http : Option HttpMetrics)
    (logs : List LogEntry) :
    buildCorrelationTimeline (some s) (some e) cpuValues memoryValues http logs
      = [] ∧
    applyAnomalies [] = [] := by
  constructor
  · have hr : e - s ≤ 0 := by omega
    simp [buildCorrelationTimeline, hr]
  · simp [applyAnomalies, metricsToCheck, anomalyPass_nil]

/-- Witness for C6 at `start = end = 1000`. -/
theorem degenerate_period_empty_windows_witness :
    ((1000 : ℤ) ≤ 1000) ∧
    (buildCorrelationTimeline (some 1000) (some 1000) [] [] none [] = [] ∧
      applyAnomalies [] = []) :=
  ⟨by decide, degenerate_period_empty_windows 1000 1000 (by decide) [] [] none []⟩

/-! ### Structure lemmas for the window builder and anomaly detector -/

theorem keyVal_setFlag (w : TimelineWindow) (b : Bool) (k : AKey) :
    keyVal (setFlag w b) k = keyVal w k := by
  cases k <;> rfl

theorem setFlag_false (w : TimelineWindow) : setFlag w false = w := by
  simp [setFlag]

theorem setFlag_setFlag (w : TimelineWindow) (b₁ b₂ : Bool) :
    setFlag (setFlag w b₁) b₂ = setFlag w (b₁ || b₂) := by
  simp [setFlag, Bool.or_assoc]

/-- One detector pass is a `map` that ORs the pass's flag decision into
`isAnomaly`. -/
theorem anomalyPass_eq_map (ws : List TimelineWindow) (key : AKey) :
    anomalyPass ws key =
      ws.map (fun w => setFlag w (flagB ws key (keyVal w key))) := by
  unfold anomalyPass
  by_cases hv : 0 < pvarianceOf (ws.map (fun w => keyVal w key))
  · simp only [if_pos hv]
    apply List.map_congr_left
    intro w _
    by_cases hc : meanOf (ws.map (fun w => keyVal w key)) < keyVal w key ∧
        4 * pvarianceOf (ws.map (fun w => keyVal w key)) <
          (keyVal w key - meanOf (ws.map (fun w => keyVal w key))) ^ 2
    · rw [if_pos hc]
      simp [setFlag, flagB, hv, hc.1, hc.2]
    · rw [if_neg hc]
      rcases not_and_or.mp hc with h | h <;>
        simp [flagB, hv, h, setFlag_false]
  · simp only [if_neg hv]
    have hid : ∀ w ∈ ws, setFlag w (flagB ws key (keyVal w key)) = w := by
      intro w _
      have hb : flagB ws key (keyVal w key) = false := by simp [flagB, hv]
      rw [hb, setFlag_false]
    exact ((List.map_congr_left hid).trans (List.map_id ws)).symm

theorem anomalyPass_length (ws : List TimelineWindow) (key : AKey) :
    (anomalyPass ws key).length = ws.length := by
  rw [anomalyPass_eq_map, List.length_map]

theorem anomalyPass_map_keyVal (ws : List TimelineWindow) (key k : AKey) :
    (anomalyPass ws key).map (fun w => keyVal w k) =
      ws.map (fun w => keyVal w k) := by
  rw [anomalyPass_eq_map, List.map_map]
  exact List.map_congr_left (fun w _ => keyVal_setFlag w _ k)

theorem flagB_anomalyPass (ws : List TimelineWindow) (key k : AKey) (x : ℚ) :
    flagB (anomalyPass ws key) k x = flagB ws k x := by
  simp only [flagB, anomalyPass_map_keyVal]

theorem foldl_anomalyPass_get? :
    ∀ (ks : List AKey) (ws : List TimelineWindow) (j : ℕ),
      (ks.foldl anomalyPass ws).get? j =
        (ws.get? j).map
          (fun w => setFlag w (ks.any (fun k => flagB ws k (keyVal w k))))
  | [], ws, j => by
    rw [List.foldl_nil]
    cases h : ws.get? j
    · rfl
    · simp [setFlag_false]
  | key :: kt, ws, j => by
    rw [List.foldl_cons, foldl_anomalyPass_get? kt (anomalyPass ws key) j,
      anomalyPass_eq_map, List.get?_map]
    cases h : ws.get? j with
    | none => rfl
    | some w =>
      simp only [Option.map_some']
      rw [← anomalyPass_eq_map]
      simp only [keyVal_setFlag, flagB_anomalyPass, setFlag_setFlag,
        List.any_cons]

theorem foldl_anomalyPass_length :
    ∀ (ks : List AKey) (ws : List TimelineWindow),
      (ks.foldl anomalyPass ws).length = ws.length
  | [], _ => rfl
  | key :: kt, ws => by
    rw [List.foldl_cons, foldl_anomalyPass_length kt, anomalyPass_length]

theorem applyAnomalies_get? (ws : List TimelineWindow) (j : ℕ) :
    (applyAnomalies ws).get? j =
      (ws.get? j).map
        (fun w => setFlag w (metricsToCheck.any (fun k => flagB ws k (keyVal w k)))) :=
  foldl_anomalyPass_get? metricsToCheck ws j

theorem applyAnomalies_length (ws : List TimelineWindow) :
    (applyAnomalies ws).length = ws.length :=
  foldl_anomalyPass_length metricsToCheck ws

theorem bucketCountOf_bounds (r : ℤ) :
    10 ≤ bucketCountOf r ∧ bucketCountOf r ≤ 20 := by
  unfold bucketCountOf
  have h1 : (10 : ℤ) ≤ min 20 (max 10 ⌈(r : ℚ) / (5 * 60)⌉) :=
    le_min (by norm_num) (le_max_left _ _)
  have h2 : min 20 (max 10 ⌈(r : ℚ) / (5 * 60)⌉) ≤ 20 := min_le_left _ _
  omega

/-- For a positive range the builder is the detector applied to the raw
window list. -/
theorem buildTimeline_pos (s e : ℤ) (h : 0 < e - s)
    (cpuValues memoryValues : List MetricValue) (http : Option HttpMetrics)
    (logs : List LogEntry) :
    buildCorrelationTimeline (some s) (some e) cpuValues memoryValues http logs =
      applyAnomalies ((List.range (bucketCountOf (e - s))).map
        (windowAt s (windowSecOf s e) cpuValues memoryValues http
          (logs.filter isErrorLog))) := by
  have hn : ¬(e - s ≤ 0) := by omega
  simp [buildCorrelationTimeline, hn, windowSecOf]

theorem windowAt_wStart (s : ℤ) (wsec : ℚ) (cpuValues memoryValues : List MetricValue)
    (http : Option HttpMetrics) (el : List LogEntry) (i : ℕ) :
    (windowAt s wsec cpuValues memoryValues http el i).wStart =
      windowStartAt s wsec i := rfl

theorem windowAt_wEnd (s : ℤ) (wsec : ℚ) (cpuValues memoryValues : List MetricValue)
    (http : Option HttpMetrics) (el : List LogEntry) (i : ℕ) :
    (windowAt s wsec cpuValues memoryValues http el i).wEnd =
      windowStartAt s wsec i + wsec := rfl

theorem setFlag_wStart (w : TimelineWindow) (b : Bool) :
    (setFlag w b).wStart = w.wStart := rfl

theorem setFlag_wEnd (w : TimelineWindow) (b : Bool) :
    (setFlag w b).wEnd = w.wEnd := rfl

theorem setFlag_cpu (w : TimelineWindow) (b : Bool) :
    (setFlag w b).cpu = w.cpu := rfl

theorem setFlag_memoryMb (w : TimelineWindow) (b : Bool) :
    (setFlag w b).memoryMb = w.memoryMb := rfl

theorem setFlag_p99 (w : TimelineWindow) (b : Bool) :
    (setFlag w b).p99 = w.p99 := rfl

theorem setFlag_requests (w : TimelineWindow) (b : Bool) :
    (setFlag w b).requests = w.requests := rfl

theorem setFlag_errors5xx (w : TimelineWindow) (b : Bool) :
    (setFlag w b).errors5xx = w.errors5xx := rfl

theorem sum_map_eq_length_mul (f : α → ℚ) (c : ℚ) :
    ∀ l : List α, (∀ x ∈ l, f x = c) → (l.map f).sum = l.length * c
  | [], _ => by simp
  | x :: xs, h => by
    rw [List.map_cons, List.sum_cons,
      sum_map_eq_length_mul f c xs (fun a ha => h a (List.mem_cons_of_mem x ha)),
      h x (List.mem_cons_self x xs), List.length_cons]
    push_cast
    ring

/-! ### C3: window count and widths -/

/-- **C3.** For every period with positive range, the builder produces
exactly `clamp(ceil(rangeSeconds / 300), 10, 20)` windows — a count always
in `[10, 20]` — each of width `rangeSeconds / windowCount`, and the window
widths sum to exactly `periodEnd - periodStart` (exact in `ℚ`; the source's
floating-point arithmetic realizes this within rounding tolerance). -/
theorem window_count_and_widths (s e : ℤ)
    (cpuValues memoryValues : List MetricValue) (http : Option HttpMetrics)
    (logs : List LogEntry) (h : 0 < e - s) :
    (buildCorrelationTimeline (some s) (some e) cpuValues memoryValues http
        logs).length = bucketCountOf (e - s) ∧
    bucketCountOf (e - s) = (min 20 (max 10 ⌈((e - s : ℤ) : ℚ) / 300⌉)).toNat ∧
    10 ≤ bucketCountOf (e - s) ∧ bucketCountOf (e - s) ≤ 20 ∧
    (∀ w ∈ buildCorrelationTimeline (some s) (some e) cpuValues memoryValues
        http logs, w.wEnd - w.wStart = windowSecOf s e) ∧
    ((buildCorrelationTimeline (some s) (some e) cpuValues memoryValues http
        logs).map (fun w => w.wEnd - w.wStart)).sum = ((e - s : ℤ) : ℚ) := by
  rw [buildTimeline_pos s e h]
  have hlen : (applyAnomalies ((List.range (bucketCountOf (e - s))).map
      (windowAt s (windowSecOf s e) cpuValues memoryValues http
        (logs.filter isErrorLog)))).length = bucketCountOf (e - s) := by
    rw [applyAnomalies_length, List.length_map, List.length_range]
  have hwidth : ∀ w ∈ applyAnomalies ((List.range (bucketCountOf (e - s))).map
      (windowAt s (windowSecOf s e) cpuValues memoryValues http
        (logs.filter isErrorLog))), w.wEnd - w.wStart = windowSecOf s e := by
    intro w hw
    obtain ⟨j, hj⟩ := List.mem_iff_get?.mp hw
    rw [applyAnomalies_get?] at hj
    cases hr : ((List.range (bucketCountOf (e - s))).map
        (windowAt s (windowSecOf s e) cpuValues memoryValues http
          (logs.filter isErrorLog))).get? j with
    | none => rw [hr] at hj; cases hj
    | some w₀ =>
      rw [hr] at hj
      simp only [Option.map_some', Option.some_inj] at hj
      obtain ⟨i, -, rfl⟩ := List.mem_map.mp (List.get?_mem hr)
      rw [← hj, setFlag_wEnd, setFlag_wStart, windowAt_wEnd, windowAt_wStart]
      ring
  have hnz : ((bucketCountOf (e - s) : ℚ)) ≠ 0 := by
    have := (bucketCountOf_bounds (e - s)).1
    positivity
  refine ⟨hlen, ?_, (bucketCountOf_bounds (e - s)).1,
    (bucketCountOf_bounds (e - s)).2, hwidth, ?_⟩
  · unfold bucketCountOf
    norm_num
  · rw [sum_map_eq_length_mul _ _ _ hwidth, hlen, windowSecOf,
      mul_comm, div_mul_cancel₀ _ hnz]

/-- Witness for C3 at the period `[0, 3000)`. -/
theorem window_count_and_widths_witness :
    ((0 : ℤ) < 3000 - 0) ∧
    ((buildCorrelationTimeline (some 0) (some 3000) [] [] none []).length
        = bucketCountOf (3000 - 0) ∧
      bucketCountOf (3000 - 0)
        = (min 20 (max 10 ⌈((3000 - 0 : ℤ) : ℚ) / 300⌉)).toNat ∧
      10 ≤ bucketCountOf (3000 - 0) ∧ bucketCountOf (3000 - 0) ≤ 20 ∧
      (∀ w ∈ buildCorrelationTimeline (some 0) (some 3000) [] [] none [],
        w.wEnd - w.wStart = windowSecOf 0 3000) ∧
      ((buildCorrelationTimeline (some 0) (some 3000) [] [] none []).map
        (fun w => w.wEnd - w.wStart)).sum = ((3000 - 0 : ℤ) : ℚ)) :=
  ⟨by decide, window_count_and_widths 0 3000 [] [] none [] (by decide)⟩

/-! ### C1: the windows partition the analysis period -/

/-- **C1.** For every timestamp `t` with `periodStart ≤ t < periodEnd`
(positive range), there is exactly one window index `i` among the
`bucketCountOf` windows whose half-open bounds
`[startSec + i·windowSec, startSec + (i+1)·windowSec)` contain `t`; these
are exactly the bounds every per-window aggregation filters on (see C4), so
each in-period sample contributes to exactly one window — boundary samples
included. -/
theorem sample_partition (s e : ℤ) (t : ℚ) (h : 0 < e - s)
    (h1 : (s : ℚ) ≤ t) (h2 : t < (e : ℚ)) :
    ∃! i : ℕ, i < bucketCountOf (e - s) ∧
      windowStartAt s (windowSecOf s e) i ≤ t ∧
      t < windowStartAt s (windowSecOf s e) i + windowSecOf s e := by
  have hn10 : 10 ≤ bucketCountOf (e - s) := (bucketCountOf_bounds (e - s)).1
  have hnpos : (0 : ℚ) < (bucketCountOf (e - s) : ℚ) := by
    have : 0 < bucketCountOf (e - s) := by omega
    exact_mod_cast this
  have hr : (0 : ℚ) < ((e - s : ℤ) : ℚ) := by exact_mod_cast h
  have hw : 0 < windowSecOf s e := div_pos hr hnpos
  have hnw : (bucketCountOf (e - s) : ℚ) * windowSecOf s e = ((e - s : ℤ) : ℚ) := by
    rw [windowSecOf, mul_comm, div_mul_cancel₀ _ (ne_of_gt hnpos)]
  have hu0 : 0 ≤ (t - (s : ℚ)) / windowSecOf s e :=
    div_nonneg (by linarith) (le_of_lt hw)
  have hun : (t - (s : ℚ)) / windowSecOf s e < (bucketCountOf (e - s) : ℚ) := by
    rw [div_lt_iff₀ hw, hnw]
    push_cast
    linarith
  have hfl0 : 0 ≤ ⌊(t - (s : ℚ)) / windowSecOf s e⌋ := Int.floor_nonneg.mpr hu0
  have hcast : ((⌊(t - (s : ℚ)) / windowSecOf s e⌋.toNat : ℕ) : ℚ) =
      ((⌊(t - (s : ℚ)) / windowSecOf s e⌋ : ℤ) : ℚ) := by
    exact_mod_cast congrArg (fun z : ℤ => (z : ℚ)) (Int.toNat_of_nonneg hfl0)
  refine ⟨⌊(t - (s : ℚ)) / windowSecOf s e⌋.toNat, ⟨?_, ?_, ?_⟩, ?_⟩
  · have hlt : ⌊(t - (s : ℚ)) / windowSecOf s e⌋ < (bucketCountOf (e - s) : ℤ) :=
      Int.floor_lt.mpr (by push_cast; exact hun)
    omega
  · rw [windowStartAt, hcast]
    have hle : ((⌊(t - (s : ℚ)) / windowSecOf s e⌋ : ℤ) : ℚ) ≤
        (t - (s : ℚ)) / windowSecOf s e := Int.floor_le _
    rw [← sub_nonneg]
    have := (le_div_iff₀ hw).mp hle
    linarith
  · rw [windowStartAt, hcast]
    have hlt : (t - (s : ℚ)) / windowSecOf s e <
        ((⌊(t - (s : ℚ)) / windowSecOf s e⌋ : ℤ) : ℚ) + 1 := Int.lt_floor_add_one _
    have := (div_lt_iff₀ hw).mp hlt
    nlinarith
  · intro j hj
    obtain ⟨hjn, hj1, hj2⟩ := hj
    rw [windowStartAt] at hj1 hj2
    have hju : ((j : ℤ) : ℚ) ≤ (t - (s : ℚ)) / windowSecOf s e := by
      rw [le_div_iff₀ hw]
      push_cast
      linarith
    have hju2 : (t - (s : ℚ)) / windowSecOf s e < ((j : ℤ) : ℚ) + 1 := by
      rw [div_lt_iff₀ hw]
      push_cast
      nlinarith
    have : ⌊(t - (s : ℚ)) / windowSecOf s e⌋ = (j : ℤ) :=
      Int.floor_eq_iff.mpr ⟨hju, by push_cast at hju2 ⊢; linarith⟩
    omega

/-- Witness for C1: the period `[0, 3000)` and the boundary timestamp
`t = 300` (an interior window edge). -/
theorem sample_partition_witness :
    ((0 : ℤ) < 3000 - 0) ∧ (((0 : ℤ) : ℚ) ≤ 300) ∧ ((300 : ℚ) < ((3000 : ℤ) : ℚ)) ∧
    (∃! i : ℕ, i < bucketCountOf (3000 - 0) ∧
      windowStartAt 0 (windowSecOf 0 3000) i ≤ 300 ∧
      (300 : ℚ) < windowStartAt 0 (windowSecOf 0 3000) i + windowSecOf 0 3000) :=
  ⟨by decide, by decide, by decide,
    sample_partition 0 3000 300 (by decide) (by decide) (by decide)⟩

/-! ### C4: per-window aggregation postcondition -/

theorem sample_foldl_sum (l : List MetricValue) :
    l.foldl (fun s v => s + v.value) 0 = (l.map (fun v => v.value)).sum := by
  simpa using foldl_add_eq (fun v => v.value) l 0

theorem statusStep_foldl (wStart wEnd : ℚ) :
    ∀ (l : List StatusCodeSample) (a b : ℚ),
      l.foldl (statusStep wStart wEnd) (a, b) =
        (a + ((l.filter (fun x => decide (wStart ≤ x.ts ∧ x.ts < wEnd))).map
            (fun x => x.count)).sum,
         b + ((l.filter (fun x => decide ((wStart ≤ x.ts ∧ x.ts < wEnd) ∧
            500 ≤ x.statusCode ∧ x.statusCode < 600))).map
            (fun x => x.count)).sum)
  | [], a, b => by simp
  | x :: xs, a, b => by
    rw [List.foldl_cons]
    by_cases h1 : wStart ≤ x.ts ∧ x.ts < wEnd
    · by_cases h2 : 500 ≤ x.statusCode ∧ x.statusCode < 600
      · rw [show statusStep wStart wEnd (a, b) x = (a + x.count, b + x.count) by
          simp [statusStep, h1, h2]]
        rw [statusStep_foldl wStart wEnd xs (a + x.count) (b + x.count),
          Prod.mk.injEq]
        simp only [List.filter_cons]
        constructor <;> simp [h1, h2, add_assoc]
      · rw [show statusStep wStart wEnd (a, b) x = (a + x.count, b) by
          simp [statusStep, h1, h2]]
        rw [statusStep_foldl wStart wEnd xs (a + x.count) b, Prod.mk.injEq]
        simp only [List.filter_cons]
        constructor <;> simp [h1, h2, add_assoc]
    · rw [show statusStep wStart wEnd (a, b) x = (a, b) by
        simp [statusStep, h1]]
      rw [statusStep_foldl wStart wEnd xs a b, Prod.mk.injEq]
      simp only [List.filter_cons]
      constructor <;> · simp [h1]

theorem windowAt_cpu (s : ℤ) (wsec : ℚ) (cv mv : List MetricValue)
    (http : Option HttpMetrics) (el : List LogEntry) (i : ℕ) :
    (windowAt s wsec cv mv http el i).cpu =
      specCpu (windowStartAt s wsec i) (windowStartAt s wsec i + wsec) cv := by
  dsimp only [windowAt, specCpu]
  by_cases hin : cv.filter (fun v =>
      decide (windowStartAt s wsec i ≤ v.ts ∧ v.ts < windowStartAt s wsec i + wsec)) = []
  · rw [hin]
    norm_num
  · have hpos : 0 < (cv.filter (fun v =>
        decide (windowStartAt s wsec i ≤ v.ts ∧ v.ts < windowStartAt s wsec i + wsec))).length :=
      List.length_pos.mpr hin
    rw [if_neg hin, if_pos hpos, sample_foldl_sum]

theorem windowAt_memoryMb (s : ℤ) (wsec : ℚ) (cv mv : List MetricValue)
    (http : Option HttpMetrics) (el : List LogEntry) (i : ℕ) :
    (windowAt s wsec cv mv http el i).memoryMb =
      specMemoryMb (windowStartAt s wsec i) (windowStartAt s wsec i + wsec) mv := by
  dsimp only [windowAt, specMemoryMb]
  by_cases hin : mv.filter (fun v =>
      decide (windowStartAt s wsec i ≤ v.ts ∧ v.ts < windowStartAt s wsec i + wsec)) = []
  · rw [hin]
    norm_num
  · have hpos : 0 < (mv.filter (fun v =>
        decide (windowStartAt s wsec i ≤ v.ts ∧ v.ts < windowStartAt s wsec i + wsec))).length :=
      List.length_pos.mpr hin
    rw [if_neg hin, if_pos hpos, mul_comm]

theorem windowAt_p99 (s : ℤ) (wsec : ℚ) (cv mv : List MetricValue)
    (http : Option HttpMetrics) (el : List LogEntry) (i : ℕ) :
    (windowAt s wsec cv mv http el i).p99 =
      specP99 (windowStartAt s wsec i) (windowStartAt s wsec i + wsec) http := by
  cases http with
  | none => rfl
  | some h =>
    dsimp only [windowAt, specP99]
    by_cases hin : h.latencySamples.filter (fun x =>
        decide (windowStartAt s wsec i ≤ x.ts ∧ x.ts < windowStartAt s wsec i + wsec)) = []
    · rw [hin]
      norm_num
    · have hpos : 0 < (h.latencySamples.filter (fun x =>
          decide (windowStartAt s wsec i ≤ x.ts ∧ x.ts < windowStartAt s wsec i + wsec))).length :=
        List.length_pos.mpr hin
      rw [if_neg hin, if_pos hpos]

theorem windowAt_requests (s : ℤ) (wsec : ℚ) (cv mv : List MetricValue)
    (http : Option HttpMetrics) (el : List LogEntry) (i : ℕ) :
    (windowAt s wsec cv mv http el i).requests =
      specRequests (windowStartAt s wsec i) (windowStartAt s wsec i + wsec) http := by
  cases http with
  | none => rfl
  | some h =>
    dsimp only [windowAt, specRequests]
    rw [statusStep_foldl]
    simp

theorem windowAt_errors5xx (s : ℤ) (wsec : ℚ) (cv mv : List MetricValue)
    (http : Option HttpMetrics) (el : List LogEntry) (i : ℕ) :
    (windowAt s wsec cv mv http el i).errors5xx =
      specErrors5xx (windowStartAt s wsec i) (windowStartAt s wsec i + wsec) http := by
  cases http with
  | none => rfl
  | some h =>
    dsimp only [windowAt, specErrors5xx]
    rw [statusStep_foldl]
    simp

theorem windowAt_isAnomaly (s : ℤ) (wsec : ℚ) (cv mv : List MetricValue)
    (http : Option HttpMetrics) (el : List LogEntry) (i : ℕ) :
    (windowAt s wsec cv mv http el i).isAnomaly = false := rfl

/-- The `j`-th produced window is the raw aggregate of window `j` with some
flag bit ORed into `isAnomaly`. -/
theorem buildTimeline_getD (s e : ℤ) (h : 0 < e - s)
    (cpuValues memoryValues : List MetricValue) (http : Option HttpMetrics)
    (logs : List LogEntry) (j : ℕ) (hj : j < bucketCountOf (e - s)) :
    (buildCorrelationTimeline (some s) (some e) cpuValues memoryValues http
        logs).getD j dummyWindow =
      setFlag (windowAt s (windowSecOf s e) cpuValues memoryValues http
          (logs.filter isErrorLog) j)
        (metricsToCheck.any (fun k =>
          flagB ((List.range (bucketCountOf (e - s))).map
              (windowAt s (windowSecOf s e) cpuValues memoryValues http
                (logs.filter isErrorLog))) k
            (keyVal (windowAt s (windowSecOf s e) cpuValues memoryValues http
              (logs.filter isErrorLog) j) k))) := by
  rw [buildTimeline_pos s e h]
  show ((applyAnomalies _).get? j).getD dummyWindow = _
  rw [applyAnomalies_get?, List.get?_map, List.get?_range hj]
  rfl

/-- **C4.** Every window produced by `buildCorrelationTimeline` carries the
computed bounds of its index and satisfies the aggregation postcondition:
cpu is the in-window mean (0 if none), memoryMb is 1024 × the in-window
maximum (0 if none), p99 is the in-window maximum (0 if none or no HTTP
data), requests is the sum of in-window flattened status-code counts, and a
sample's count contributes to errors5xx iff `500 ≤ statusCode < 600`. -/
theorem window_aggregation (s e : ℤ)
    (cpuValues memoryValues : List MetricValue) (http : Option HttpMetrics)
    (logs : List LogEntry) (j : ℕ) (h : 0 < e - s)
    (hj : j < bucketCountOf (e - s)) :
    ((buildCorrelationTimeline (some s) (some e) cpuValues memoryValues http
        logs).getD j dummyWindow).wStart = windowStartAt s (windowSecOf s e) j ∧
    ((buildCorrelationTimeline (some s) (some e) cpuValues memoryValues http
        logs).getD j dummyWindow).wEnd =
      windowStartAt s (windowSecOf s e) j + windowSecOf s e ∧
    ((buildCorrelationTimeline (some s) (some e) cpuValues memoryValues http
        logs).getD j dummyWindow).cpu =
      specCpu (windowStartAt s (windowSecOf s e) j)
        (windowStartAt s (windowSecOf s e) j + windowSecOf s e) cpuValues ∧
    ((buildCorrelationTimeline (some s) (some e) cpuValues memoryValues http
        logs).getD j dummyWindow).memoryMb =
      specMemoryMb (windowStartAt s (windowSecOf s e) j)
        (windowStartAt s (windowSecOf s e) j + windowSecOf s e) memoryValues ∧
    ((buildCorrelationTimeline (some s) (some e) cpuValues memoryValues http
        logs).getD j dummyWindow).p99 =
      specP99 (windowStartAt s (windowSecOf s e) j)
        (windowStartAt s (windowSecOf s e) j + windowSecOf s e) http ∧
    ((buildCorrelationTimeline (some s) (some e) cpuValues memoryValues http
        logs).getD j dummyWindow).requests =
      specRequests (windowStartAt s (windowSecOf s e) j)
        (windowStartAt s (windowSecOf s e) j + windowSecOf s e) http ∧
    ((buildCorrelationTimeline (some s) (some e) cpuValues memoryValues http
        logs).getD j dummyWindow).errors5xx =
      specErrors5xx (windowStartAt s (windowSecOf s e) j)
        (windowStartAt s (windowSecOf s e) j + windowSecOf s e) http := by
  rw [buildTimeline_getD s e h cpuValues memoryValues http logs j hj]
  refine ⟨?_, ?_, ?_, ?_, ?_, ?_, ?_⟩
  · rw [setFlag_wStart, windowAt_wStart]
  · rw [setFlag_wEnd, windowAt_wEnd]
  · rw [setFlag_cpu, windowAt_cpu]
  · rw [setFlag_memoryMb, windowAt_memoryMb]
  · rw [setFlag_p99, windowAt_p99]
  · rw [setFlag_requests, windowAt_requests]
  · rw [setFlag_errors5xx, windowAt_errors5xx]

/-- Witness for C4: window 0 of the period `[0, 3000)` with empty streams. -/
theorem window_aggregation_witness :
    ((0 : ℤ) < 3000 - 0) ∧ ((0 : ℕ) < bucketCountOf (3000 - 0)) ∧
    (((buildCorrelationTimeline (some 0) (some 3000) [] [] none []).getD 0
        dummyWindow).wStart = windowStartAt 0 (windowSecOf 0 3000) 0 ∧
      ((buildCorrelationTimeline (some 0) (some 3000) [] [] none []).getD 0
        dummyWindow).wEnd =
          windowStartAt 0 (windowSecOf 0 3000) 0 + windowSecOf 0 3000 ∧
      ((buildCorrelationTimeline (some 0) (some 3000) [] [] none []).getD 0
        dummyWindow).cpu =
          specCpu (windowStartAt 0 (windowSecOf 0 3000) 0)
            (windowStartAt 0 (windowSecOf 0 3000) 0 + windowSecOf 0 3000) [] ∧
      ((buildCorrelationTimeline (some 0) (some 3000) [] [] none []).getD 0
        dummyWindow).memoryMb =
          specMemoryMb (windowStartAt 0 (windowSecOf 0 3000) 0)
            (windowStartAt 0 (windowSecOf 0 3000) 0 + windowSecOf 0 3000) [] ∧
      ((buildCorrelationTimeline (some 0) (some 3000) [] [] none []).getD 0
        dummyWindow).p99 =
          specP99 (windowStartAt 0 (windowSecOf 0 3000) 0)
            (windowStartAt 0 (windowSecOf 0 3000) 0 + windowSecOf 0 3000) none ∧
      ((buildCorrelationTimeline (some 0) (some 3000) [] [] none []).getD 0
        dummyWindow).requests =
          specRequests (windowStartAt 0 (windowSecOf 0 3000) 0)
            (windowStartAt 0 (windowSecOf 0 3000) 0 + windowSecOf 0 3000) none ∧
      ((buildCorrelationTimeline (some 0) (some 3000) [] [] none []).getD 0
        dummyWindow).errors5xx =
          specErrors5xx (windowStartAt 0 (windowSecOf 0 3000) 0)
            (windowStartAt 0 (windowSecOf 0 3000) 0 + windowSecOf 0 3000) none) :=
  ⟨by decide, Nat.lt_of_lt_of_le (by decide) (bucketCountOf_bounds (3000 - 0)).1,
    window_aggregation 0 3000 [] [] none [] 0 (by decide)
      (Nat.lt_of_lt_of_le (by decide) (bucketCountOf_bounds (3000 - 0)).1)⟩

/-! ### C2: the anomaly-detector flag rule -/

theorem flagB_eq_true_iff (ws : List TimelineWindow) (k : AKey) (x : ℚ) :
    flagB ws k x = true ↔
      (0 < pvarianceOf (ws.map (fun w => keyVal w k)) ∧
        meanOf (ws.map (fun w => keyVal w k)) < x ∧
        4 * pvarianceOf (ws.map (fun w => keyVal w k)) <
          (x - meanOf (ws.map (fun w => keyVal w k))) ^ 2) := by
  simp [flagB]

theorem foldl_anomalyPass_map_keyVal :
    ∀ (ks : List AKey) (ws : List TimelineWindow) (k : AKey),
      (ks.foldl anomalyPass ws).map (fun w => keyVal w k) =
        ws.map (fun w => keyVal w k)
  | [], _, _ => rfl
  | key :: kt, ws, k => by
    rw [List.foldl_cons, foldl_anomalyPass_map_keyVal kt, anomalyPass_map_keyVal]

theorem applyAnomalies_map_keyVal (ws : List TimelineWindow) (k : AKey) :
    (applyAnomalies ws).map (fun w => keyVal w k) = ws.map (fun w => keyVal w k) :=
  foldl_anomalyPass_map_keyVal metricsToCheck ws k

theorem pvarianceOf_nonneg (vals : List ℚ) : 0 ≤ pvarianceOf vals := by
  unfold pvarianceOf
  apply div_nonneg
  · rw [show (fun (s : ℚ) (v : ℚ) => s + (v - meanOf vals) ^ 2) =
        (fun s v => s + (fun v => (v - meanOf vals) ^ 2) v) from rfl,
      foldl_add_eq, zero_add]
    apply List.sum_nonneg
    intro x hx
    obtain ⟨v, -, rfl⟩ := List.mem_map.mp hx
    positivity
  · positivity

/-- The source's `stddev > 0` gate and `x > mean + 2·stddev` test, with
`stddev = √variance` taken in `ℝ`, are equivalent to the sqrt-free rational
conditions used in the embedding, for any nonnegative variance. -/
theorem sqrt_flag_iff (m v x : ℚ) (hv : 0 ≤ v) :
    (0 < Real.sqrt (v : ℝ) ∧
      ((m : ℝ) + 2 * Real.sqrt (v : ℝ) < (x : ℝ))) ↔
      (0 < v ∧ m < x ∧ 4 * v < (x - m) ^ 2) := by
  have hvr : (0 : ℝ) ≤ (v : ℝ) := by exact_mod_cast hv
  have hsq : Real.sqrt (v : ℝ) ^ 2 = (v : ℝ) := Real.sq_sqrt hvr
  have hsn : 0 ≤ Real.sqrt (v : ℝ) := Real.sqrt_nonneg _
  constructor
  · rintro ⟨h1, h2⟩
    have hv0 : (0 : ℝ) < (v : ℝ) := Real.sqrt_pos.mp h1
    have hmx : (m : ℝ) < (x : ℝ) := by nlinarith
    have h4 : (4 : ℝ) * (v : ℝ) < ((x : ℝ) - (m : ℝ)) ^ 2 := by nlinarith
    refine ⟨by exact_mod_cast hv0, by exact_mod_cast hmx, ?_⟩
    have : ((4 * v : ℚ) : ℝ) < (((x - m) ^ 2 : ℚ) : ℝ) := by push_cast; linarith
    exact_mod_cast this
  · rintro ⟨hv0, hmx, h4⟩
    have h1 : 0 < Real.sqrt (v : ℝ) := Real.sqrt_pos.mpr (by exact_mod_cast hv0)
    have hmxr : (m : ℝ) < (x : ℝ) := by exact_mod_cast hmx
    have h4r : (4 : ℝ) * (v : ℝ) < ((x : ℝ) - (m : ℝ)) ^ 2 := by
      have : ((4 * v : ℚ) : ℝ) < (((x - m) ^ 2 : ℚ) : ℝ) := by exact_mod_cast h4
      push_cast at this
      linarith
    refine ⟨h1, ?_⟩
    nlinarith [sq_nonneg ((x : ℝ) - (m : ℝ) + 2 * Real.sqrt (v : ℝ))]

/-- **C2.** A produced window's final `isAnomaly` is `true` iff some field
among `metricsToCheck` has strictly positive population standard deviation
(over all produced windows) and the window's value strictly exceeds
`mean + 2·stddev` for that field; a field with zero deviation flags
nothing. -/
theorem anomaly_flag_rule (s e : ℤ)
    (cpuValues memoryValues : List MetricValue) (http : Option HttpMetrics)
    (logs : List LogEntry) (j : ℕ) (h : 0 < e - s)
    (hj : j < bucketCountOf (e - s)) :
    ((buildCorrelationTimeline (some s) (some e) cpuValues memoryValues http
        logs).getD j dummyWindow).isAnomaly = true ↔
      ∃ k, k ∈ metricsToCheck ∧
        0 < Real.sqrt ((pvarianceOf
          ((buildCorrelationTimeline (some s) (some e) cpuValues memoryValues
            http logs).map (fun w => keyVal w k)) : ℚ) : ℝ) ∧
        ((meanOf ((buildCorrelationTimeline (some s) (some e) cpuValues
              memoryValues http logs).map (fun w => keyVal w k)) : ℚ) : ℝ) +
            2 * Real.sqrt ((pvarianceOf
              ((buildCorrelationTimeline (some s) (some e) cpuValues
                memoryValues http logs).map (fun w => keyVal w k)) : ℚ) : ℝ) <
          ((keyVal ((buildCorrelationTimeline (some s) (some e) cpuValues
            memoryValues http logs).getD j dummyWindow) k : ℚ) : ℝ) := by
  rw [buildTimeline_getD s e h cpuValues memoryValues http logs j hj,
    buildTimeline_pos s e h]
  rw [show (setFlag (windowAt s (windowSecOf s e) cpuValues memoryValues http
      (logs.filter isErrorLog) j)
        (metricsToCheck.any (fun k =>
          flagB ((List.range (bucketCountOf (e - s))).map
              (windowAt s (windowSecOf s e) cpuValues memoryValues http
                (logs.filter isErrorLog))) k
            (keyVal (windowAt s (windowSecOf s e) cpuValues memoryValues http
              (logs.filter isErrorLog) j) k)))).isAnomaly =
      metricsToCheck.any (fun k =>
        flagB ((List.range (bucketCountOf (e - s))).map
            (windowAt s (windowSecOf s e) cpuValues memoryValues http
              (logs.filter isErrorLog))) k
          (keyVal (windowAt s (windowSecOf s e) cpuValues memoryValues http
            (logs.filter isErrorLog) j) k)) from by
    simp [setFlag, windowAt_isAnomaly]]
  rw [List.any_eq_true]
  constructor
  · rintro ⟨k, hk, hflag⟩
    rw [flagB_eq_true_iff] at hflag
    refine ⟨k, hk, ?_⟩
    rw [applyAnomalies_map_keyVal, keyVal_setFlag]
    exact (sqrt_flag_iff _ _ _ (pvarianceOf_nonneg _)).mpr hflag
  · rintro ⟨k, hk, hcond⟩
    rw [applyAnomalies_map_keyVal, keyVal_setFlag] at hcond
    refine ⟨k, hk, ?_⟩
    rw [flagB_eq_true_iff]
    exact (sqrt_flag_iff _ _ _ (pvarianceOf_nonneg _)).mp hcond

/-- Witness for C2: window 0 of the period `[0, 3000)` with empty streams
(all-zero fields, so no field may flag and `isAnomaly` is false). -/
theorem anomaly_flag_rule_witness :
    ((0 : ℤ) < 3000 - 0) ∧ ((0 : ℕ) < bucketCountOf (3000 - 0)) ∧
    (((buildCorrelationTimeline (some 0) (some 3000) [] [] none []).getD 0
        dummyWindow).isAnomaly = true ↔
      ∃ k, k ∈ metricsToCheck ∧
        0 < Real.sqrt ((pvarianceOf
          ((buildCorrelationTimeline (some 0) (some 3000) [] [] none
            []).map (fun w => keyVal w k)) : ℚ) : ℝ) ∧
        ((meanOf ((buildCorrelationTimeline (some 0) (some 3000) [] [] none
              []).map (fun w => keyVal w k)) : ℚ) : ℝ) +
            2 * Real.sqrt ((pvarianceOf
              ((buildCorrelationTimeline (some 0) (some 3000) [] [] none
                []).map (fun w => keyVal w k)) : ℚ) : ℝ) <
          ((keyVal ((buildCorrelationTimeline (some 0) (some 3000) [] [] none
            []).getD 0 dummyWindow) k : ℚ) : ℝ)) :=
  ⟨by decide, Nat.lt_of_lt_of_le (by decide) (bucketCountOf_bounds (3000 - 0)).1,
    anomaly_flag_rule 0 3000 [] [] none [] 0 (by decide)
      (Nat.lt_of_lt_of_le (by decide) (bucketCountOf_bounds (3000 - 0)).1)⟩

/-! ### C9 / C10: the status bucketizer -/

theorem bucketAdd_nil (lab : String) (c : ℕ) (t : ℚ) :
    bucketAdd [] lab c t = [(lab, ⟨t, [(c, t)]⟩)] := rfl

theorem bucketAdd_cons_eq (k : String) (e : BucketData)
    (rest : List (String × BucketData)) (lab : String) (c : ℕ) (t : ℚ)
    (h : k = lab) :
    bucketAdd ((k, e) :: rest) lab c t =
      (k, ⟨e.count + t, codesAdd e.codes c t⟩) :: rest := by
  simp [bucketAdd, h]

theorem bucketAdd_cons_ne (k : String) (e : BucketData)
    (rest : List (String × BucketData)) (lab : String) (c : ℕ) (t : ℚ)
    (h : ¬k = lab) :
    bucketAdd ((k, e) :: rest) lab c t = (k, e) :: bucketAdd rest lab c t := by
  simp [bucketAdd, h]

theorem countOf_nil (x : String) : countOf [] x = 0 := rfl

theorem countOf_cons (k : String) (e : BucketData)
    (rest : List (String × BucketData)) (x : String) :
    countOf ((k, e) :: rest) x =
      (if k = x then e.count else 0) + countOf rest x := by
  unfold countOf
  by_cases hk : k = x
  · subst hk
    simp [List.filter_cons]
  · simp [List.filter_cons, hk]

theorem bucketAdd_countOf :
    ∀ (m : List (String × BucketData)) (lab : String) (c : ℕ) (t : ℚ)
      (x : String),
      countOf (bucketAdd m lab c t) x =
        countOf m x + (if lab = x then t else 0)
  | [], lab, c, t, x => by
    rw [bucketAdd_nil, countOf_cons]
    by_cases hx : lab = x <;> simp [hx, countOf_nil]
  | (k, e) :: rest, lab, c, t, x => by
    by_cases hk : k = lab
    · rw [bucketAdd_cons_eq k e rest lab c t hk, countOf_cons, countOf_cons]
      subst hk
      by_cases hx : k = x <;> simp [hx, add_assoc, add_comm, add_left_comm]
    · rw [bucketAdd_cons_ne k e rest lab c t hk, countOf_cons, countOf_cons,
        bucketAdd_countOf rest lab c t x]
      ring

theorem countOf_eq_zero :
    ∀ (m : List (String × BucketData)) (x : String),
      x ∉ m.map Prod.fst → countOf m x = 0
  | [], _, _ => rfl
  | (k, e) :: rest, x, hx => by
    rw [countOf_cons, countOf_eq_zero rest x (fun hm => hx (by simp [hm]))]
    have hk : ¬k = x := fun hkx => hx (by simp [hkx])
    simp [hk]

theorem mem_count_eq_countOf :
    ∀ (m : List (String × BucketData)) (p : String × BucketData),
      (m.map Prod.fst).Nodup → p ∈ m → p.2.count = countOf m p.1
  | (q :: rest), p, hnd, hp => by
    rw [List.map_cons, List.nodup_cons] at hnd
    rcases List.mem_cons.mp hp with rfl | hp
    · rw [countOf_cons, if_pos rfl, countOf_eq_zero rest p.1 hnd.1]
      ring
    · have hq : ¬q.1 = p.1 := by
        intro hqe
        exact hnd.1 (hqe ▸ List.mem_map_of_mem Prod.fst hp)
      rw [countOf_cons, if_neg hq,
        mem_count_eq_countOf rest p hnd.2 hp]
      ring

theorem bucketAdd_keys_mem :
    ∀ (m : List (String × BucketData)) (lab : String) (c : ℕ) (t : ℚ)
      (x : String),
      x ∈ (bucketAdd m lab c t).map Prod.fst ↔
        x ∈ m.map Prod.fst ∨ x = lab
  | [], lab, c, t, x => by simp [bucketAdd_nil]
  | (k, e) :: rest, lab, c, t, x => by
    by_cases hk : k = lab
    · rw [bucketAdd_cons_eq k e rest lab c t hk]
      subst hk
      simp
      tauto
    · rw [bucketAdd_cons_ne k e rest lab c t hk]
      simp [bucketAdd_keys_mem rest lab c t x]
      tauto

theorem bucketAdd_keys_nodup :
    ∀ (m : List (String × BucketData)) (lab : String) (c : ℕ) (t : ℚ),
      (m.map Prod.fst).Nodup → ((bucketAdd m lab c t).map Prod.fst).Nodup
  | [], lab, c, t, _ => by simp [bucketAdd_nil]
  | (k, e) :: rest, lab, c, t, hnd => by
    rw [List.map_cons, List.nodup_cons] at hnd
    by_cases hk : k = lab
    · rw [bucketAdd_cons_eq k e rest lab c t hk]
      exact List.nodup_cons.mpr ⟨hnd.1, hnd.2⟩
    · rw [bucketAdd_cons_ne k e rest lab c t hk]
      refine List.nodup_cons.mpr ⟨?_, bucketAdd_keys_nodup rest lab c t hnd.2⟩
      intro hmem
      rcases (bucketAdd_keys_mem rest lab c t k).mp hmem with hm | hm
      · exact hnd.1 hm
      · exact hk hm

theorem fold_countOf :
    ∀ (gs : List HttpStatusGroup) (m : List (String × BucketData)) (x : String),
      countOf (gs.foldl (fun m g => bucketAdd m (bucketLabel g.statusCode)
          g.statusCode (sampleSum g.samples)) m) x =
        countOf m x + ((gs.filter (fun g => bucketLabel g.statusCode == x)).map
          (fun g => sampleSum g.samples)).sum
  | [], m, x => by simp
  | g :: gs, m, x => by
    rw [List.foldl_cons, fold_countOf gs _ x, bucketAdd_countOf,
      List.filter_cons]
    by_cases hg : bucketLabel g.statusCode = x <;>
      simp [hg, add_assoc, add_comm, add_left_comm]

theorem fold_keys_mem :
    ∀ (gs : List HttpStatusGroup) (m : List (String × BucketData)) (x : String),
      x ∈ (gs.foldl (fun m g => bucketAdd m (bucketLabel g.statusCode)
          g.statusCode (sampleSum g.samples)) m).map Prod.fst ↔
        x ∈ m.map Prod.fst ∨ ∃ g ∈ gs, bucketLabel g.statusCode = x
  | [], m, x => by simp
  | g :: gs, m, x => by
    rw [List.foldl_cons, fold_keys_mem gs _ x, bucketAdd_keys_mem]
    simp only [List.mem_cons]
    constructor
    · rintro (⟨hm | hlab⟩ | ⟨g', hg', hlab⟩)
      · exact Or.inl hm
      · exact Or.inr ⟨g, Or.inl rfl, hlab.symm⟩
      · exact Or.inr ⟨g', Or.inr hg', hlab⟩
    · rintro (hm | ⟨g', hg' | hg', hlab⟩)
      · exact Or.inl (Or.inl hm)
      · exact Or.inl (Or.inr (hg' ▸ hlab.symm))
      · exact Or.inr ⟨g', hg', hlab⟩

theorem fold_keys_nodup :
    ∀ (gs : List HttpStatusGroup) (m : List (String × BucketData)),
      (m.map Prod.fst).Nodup →
      ((gs.foldl (fun m g => bucketAdd m (bucketLabel g.statusCode)
          g.statusCode (sampleSum g.samples)) m).map Prod.fst).Nodup
  | [], _, h => h
  | g :: gs, m, h => by
    rw [List.foldl_cons]
    exact fold_keys_nodup gs _ (bucketAdd_keys_nodup m _ _ _ h)

theorem codesAdd_sum :
    ∀ (codes : List (ℕ × ℚ)) (c : ℕ) (t : ℚ),
      ((codesAdd codes c t).map Prod.snd).sum = (codes.map Prod.snd).sum + t
  | [], c, t => by simp [codesAdd]
  | (c', v') :: rest, c, t => by
    by_cases hc : c' = c
    · simp [codesAdd, hc]
      ring
    · simp [codesAdd, hc, codesAdd_sum rest c t]
      ring

theorem codesAdd_self_mem :
    ∀ (codes : List (ℕ × ℚ)) (c : ℕ) (t : ℚ), ∃ v, (c, v) ∈ codesAdd codes c t
  | [], c, t => ⟨t, by simp [codesAdd]⟩
  | (c', v') :: rest, c, t => by
    by_cases hc : c' = c
    · subst hc
      exact ⟨v' + t, by simp [codesAdd]⟩
    · obtain ⟨v, hv⟩ := codesAdd_self_mem rest c t
      exact ⟨v, by simp [codesAdd, hc, hv]⟩

theorem codesAdd_mem_mono :
    ∀ (codes : List (ℕ × ℚ)) (c : ℕ) (t : ℚ) (c' : ℕ) (v : ℚ),
      (c', v) ∈ codes → ∃ v', (c', v') ∈ codesAdd codes c t
  | (c₀, v₀) :: rest, c, t, c', v, hm => by
    by_cases hc : c₀ = c
    · subst hc
      rcases List.mem_cons.mp hm with heq | hm
      · exact ⟨v₀ + t, by simp [codesAdd, Prod.ext_iff] at heq ⊢; exact Or.inl heq.1⟩
      · exact ⟨v, by simp [codesAdd, hm]⟩
    · rcases List.mem_cons.mp hm with heq | hm
      · exact ⟨v, by simp [codesAdd, hc, heq]⟩
      · obtain ⟨v', hv'⟩ := codesAdd_mem_mono rest c t c' v hm
        exact ⟨v', by simp [codesAdd, hc, hv']⟩

theorem bucketAdd_codes_inv :
    ∀ (m : List (String × BucketData)) (lab : String) (c : ℕ) (t : ℚ),
      (∀ p ∈ m, p.2.count = (p.2.codes.map Prod.snd).sum) →
      ∀ p ∈ bucketAdd m lab c t, p.2.count = (p.2.codes.map Prod.snd).sum
  | [], lab, c, t, _, p, hp => by
    rw [bucketAdd_nil] at hp
    rcases List.mem_singleton.mp hp with rfl
    simp
  | (k, e) :: rest, lab, c, t, hinv, p, hp => by
    by_cases hk : k = lab
    · rw [bucketAdd_cons_eq k e rest lab c t hk] at hp
      rcases List.mem_cons.mp hp with rfl | hp
      · have he := hinv (k, e) (List.mem_cons_self _ _)
        simp only at he ⊢
        rw [codesAdd_sum, ← he]
      · exact hinv p (List.mem_cons_of_mem _ hp)
    · rw [bucketAdd_cons_ne k e rest lab c t hk] at hp
      rcases List.mem_cons.mp hp with rfl | hp
      · exact hinv (k, e) (List.mem_cons_self _ _)
      · exact bucketAdd_codes_inv rest lab c t
          (fun q hq => hinv q (List.mem_cons_of_mem _ hq)) p hp

theorem fold_codes_inv :
    ∀ (gs : List HttpStatusGroup) (m : List (String × BucketData)),
      (∀ p ∈ m, p.2.count = (p.2.codes.map Prod.snd).sum) →
      ∀ p ∈ gs.foldl (fun m g => bucketAdd m (bucketLabel g.statusCode)
          g.statusCode (sampleSum g.samples)) m,
        p.2.count = (p.2.codes.map Prod.snd).sum
  | [], _, h => h
  | g :: gs, m, h => by
    rw [List.foldl_cons]
    exact fold_codes_inv gs _ (bucketAdd_codes_inv m _ _ _ h)

theorem bucketAdd_presence_new :
    ∀ (m : List (String × BucketData)) (lab : String) (c : ℕ) (t : ℚ),
      ∃ p ∈ bucketAdd m lab c t, p.1 = lab ∧ ∃ v, (c, v) ∈ p.2.codes
  | [], lab, c, t =>
    ⟨(lab, ⟨t, [(c, t)]⟩), by simp [bucketAdd_nil], rfl, t, by simp⟩
  | (k, e) :: rest, lab, c, t => by
    by_cases hk : k = lab
    · obtain ⟨v, hv⟩ := codesAdd_self_mem e.codes c t
      exact ⟨(k, ⟨e.count + t, codesAdd e.codes c t⟩),
        by rw [bucketAdd_cons_eq k e rest lab c t hk]; exact List.mem_cons_self _ _,
        hk, v, hv⟩
    · obtain ⟨p, hp, hlab, v, hv⟩ := bucketAdd_presence_new rest lab c t
      rw [bucketAdd_cons_ne k e rest lab c t hk]
      exact ⟨p, List.mem_cons_of_mem _ hp, hlab, v, hv⟩

theorem bucketAdd_presence_mono :
    ∀ (m : List (String × BucketData)) (lab : String) (c : ℕ) (t : ℚ)
      (p : String × BucketData) (c' : ℕ) (v : ℚ),
      p ∈ m → (c', v) ∈ p.2.codes →
      ∃ p' ∈ bucketAdd m lab c t, p'.1 = p.1 ∧ ∃ v', (c', v') ∈ p'.2.codes
  | (k, e) :: rest, lab, c, t, p, c', v, hp, hcv => by
    by_cases hk : k = lab
    · rw [bucketAdd_cons_eq k e rest lab c t hk]
      rcases List.mem_cons.mp hp with rfl | hp
      · obtain ⟨v', hv'⟩ := codesAdd_mem_mono e.codes c t c' v hcv
        exact ⟨(k, ⟨e.count + t, codesAdd e.codes c t⟩),
          List.mem_cons_self _ _, rfl, v', hv'⟩
      · exact ⟨p, List.mem_cons_of_mem _ hp, rfl, v, hcv⟩
    · rw [bucketAdd_cons_ne k e rest lab c t hk]
      rcases List.mem_cons.mp hp with rfl | hp
      · exact ⟨(k, e), List.mem_cons_self _ _, rfl, v, hcv⟩
      · obtain ⟨p', hp', hlab, v', hv'⟩ :=
          bucketAdd_presence_mono rest lab c t p c' v hp hcv
        exact ⟨p', List.mem_cons_of_mem _ hp', hlab, v', hv'⟩

theorem fold_presence_mono :
    ∀ (gs : List HttpStatusGroup) (m : List (String × BucketData))
      (p : String × BucketData) (c' : ℕ) (v : ℚ),
      p ∈ m → (c', v) ∈ p.2.codes →
      ∃ p' ∈ gs.foldl (fun m g => bucketAdd m (bucketLabel g.statusCode)
          g.statusCode (sampleSum g.samples)) m,
        p'.1 = p.1 ∧ ∃ v', (c', v') ∈ p'.2.codes
  | [], m, p, c', v, hp, hcv => ⟨p, hp, rfl, v, hcv⟩
  | g :: gs, m, p, c', v, hp, hcv => by
    rw [List.foldl_cons]
    obtain ⟨p', hp', hlab, v', hv'⟩ :=
      bucketAdd_presence_mono m (bucketLabel g.statusCode) g.statusCode
        (sampleSum g.samples) p c' v hp hcv
    obtain ⟨p'', hp'', hlab', v'', hv''⟩ :=
      fold_presence_mono gs _ p' c' v' hp' hv'
    exact ⟨p'', hp'', hlab'.trans hlab, v'', hv''⟩

theorem fold_presence :
    ∀ (gs : List HttpStatusGroup) (m : List (String × BucketData)),
      ∀ g ∈ gs,
      ∃ p ∈ gs.foldl (fun m g => bucketAdd m (bucketLabel g.statusCode)
          g.statusCode (sampleSum g.samples)) m,
        p.1 = bucketLabel g.statusCode ∧ ∃ v, (g.statusCode, v) ∈ p.2.codes
  | g₀ :: gs, m, g, hg => by
    rw [List.foldl_cons]
    rcases List.mem_cons.mp hg with rfl | hg
    · obtain ⟨p, hp, hlab, v, hv⟩ :=
        bucketAdd_presence_new m (bucketLabel g.statusCode) g.statusCode
          (sampleSum g.samples)
      obtain ⟨p', hp', hlab', v', hv'⟩ := fold_presence_mono gs _ p _ v hp hv
      exact ⟨p', hp', hlab'.trans hlab, v', hv'⟩
    · exact fold_presence gs _ g hg

theorem bucketAdd_sumCount :
    ∀ (m : List (String × BucketData)) (lab : String) (c : ℕ) (t : ℚ),
      ((bucketAdd m lab c t).map (fun p => p.2.count)).sum =
        (m.map (fun p => p.2.count)).sum + t
  | [], lab, c, t => by simp [bucketAdd_nil]
  | (k, e) :: rest, lab, c, t => by
    by_cases hk : k = lab
    · rw [bucketAdd_cons_eq k e rest lab c t hk]
      simp only [List.map_cons, List.sum_cons]
      ring
    · rw [bucketAdd_cons_ne k e rest lab c t hk]
      simp only [List.map_cons, List.sum_cons, bucketAdd_sumCount rest lab c t]
      ring

theorem fold_sumCount :
    ∀ (gs : List HttpStatusGroup) (m : List (String × BucketData)),
      ((gs.foldl (fun m g => bucketAdd m (bucketLabel g.statusCode)
          g.statusCode (sampleSum g.samples)) m).map (fun p => p.2.count)).sum =
        (m.map (fun p => p.2.count)).sum +
          (gs.map (fun g => sampleSum g.samples)).sum
  | [], m => by simp
  | g :: gs, m => by
    rw [List.foldl_cons, fold_sumCount gs _, bucketAdd_sumCount,
      List.map_cons, List.sum_cons]
    ring

theorem totalRequestsOf_eq (gs : List HttpStatusGroup) :
    totalRequestsOf gs = (gs.map (fun g => sampleSum g.samples)).sum := by
  simpa using foldl_add_eq (fun g => sampleSum g.samples) gs 0

theorem statusCodesOf_perm (gs : List HttpStatusGroup) :
    List.Perm (statusCodesOf gs)
      ((bucketMapOf gs).map
        (fun p => (⟨p.1, p.2.count, p.2.codes⟩ : HttpStatusBucket))) :=
  List.perm_insertionSort _ _

/-- **C9.** The Status Bucketizer: every group's code lands in the bucket
labelled `floor(code/100) ++ "xx"`; the bucket carrying a label totals the
sample sums of exactly the groups mapped to that label (labels are not
duplicated); the output is sorted lexicographically by label;
`totalRequests` is the sum of all sample values; and the concrete scenario
`[{200,[{t0,80}]},{500,[{t0,20}]}]` produces
`[{"2xx",80,{200:80}},{"5xx",20,{500:20}}]` with `totalRequests = 100`. -/
theorem status_bucketizer (groups : List HttpStatusGroup) (t0 : ℚ) :
    (groups.all (fun g => (statusCodesOf groups).any
        (fun b => b.bucket == bucketLabel g.statusCode &&
          b.codes.any (fun cv => cv.1 == g.statusCode))) = true) ∧
    (∀ lab : String,
      (((statusCodesOf groups).filter (fun b => b.bucket == lab)).map
          (fun b => b.count)).sum =
        ((groups.filter (fun g => bucketLabel g.statusCode == lab)).map
          (fun g => sampleSum g.samples)).sum) ∧
    ((statusCodesOf groups).map (fun b => b.bucket)).Nodup ∧
    List.Sorted (fun a b : HttpStatusBucket => a.bucket ≤ b.bucket)
      (statusCodesOf groups) ∧
    totalRequestsOf groups = (groups.map (fun g => sampleSum g.samples)).sum ∧
    (summarizeHttpMetrics
        ⟨[], [⟨200, [⟨t0, 80⟩]⟩, ⟨500, [⟨t0, 20⟩]⟩]⟩).statusCodes =
      [⟨"2xx", 80, [(200, 80)]⟩, ⟨"5xx", 20, [(500, 20)]⟩] ∧
    (summarizeHttpMetrics
        ⟨[], [⟨200, [⟨t0, 80⟩]⟩, ⟨500, [⟨t0, 20⟩]⟩]⟩).totalRequests = 100 := by
  refine ⟨?_, ?_, ?_, List.sorted_insertionSort _ _,
    totalRequestsOf_eq groups, ?_, ?_⟩
  · refine List.all_eq_true.mpr ?_
    intro g hg
    obtain ⟨p, hp, hlab, v, hv⟩ := fold_presence groups [] g hg
    refine List.any_eq_true.mpr
      ⟨(⟨p.1, p.2.count, p.2.codes⟩ : HttpStatusBucket), ?_, ?_⟩
    · exact (statusCodesOf_perm groups).mem_iff.mpr (List.mem_map_of_mem _ hp)
    · rw [Bool.and_eq_true]
      exact ⟨beq_iff_eq.mpr hlab,
        List.any_eq_true.mpr ⟨(g.statusCode, v), hv, by simp⟩⟩
  · intro lab
    have hperm :
        List.Perm
          (((statusCodesOf groups).filter (fun b => b.bucket == lab)).map
            (fun b => b.count))
          ((((bucketMapOf groups).map
              (fun p => (⟨p.1, p.2.count, p.2.codes⟩ : HttpStatusBucket))).filter
            (fun b => b.bucket == lab)).map (fun b => b.count)) :=
      ((statusCodesOf_perm groups).filter _).map _
    rw [hperm.sum_eq, List.filter_map, List.map_map]
    show countOf (bucketMapOf groups) lab = _
    unfold bucketMapOf
    rw [fold_countOf groups [] lab, countOf_nil, zero_add]
  · have h1 := (statusCodesOf_perm groups).map (fun b => b.bucket)
    rw [List.map_map] at h1
    have h2 : ((bucketMapOf groups).map Prod.fst).Nodup := by
      unfold bucketMapOf
      exact fold_keys_nodup groups [] (by simp)
    exact h1.nodup_iff.mpr (by exact h2)
  · show statusCodesOf _ = _
    norm_num [statusCodesOf, bucketMapOf, bucketAdd, sampleSum, codesAdd,
      show bucketLabel 200 = "2xx" from rfl,
      show bucketLabel 500 = "5xx" from rfl]
    decide
  · show totalRequestsOf _ = 100
    norm_num [totalRequestsOf, sampleSum]

/-- **C10.** Conservation: `totalRequests` equals the sum of the output
buckets' counts, and each bucket's count equals the sum of its per-code
counts — no request count is lost or double-counted. -/
theorem bucketizer_conservation (resp : HttpMetricsResponse) :
    (summarizeHttpMetrics resp).totalRequests =
      ((summarizeHttpMetrics resp).statusCodes.map (fun b => b.count)).sum ∧
    ((summarizeHttpMetrics resp).statusCodes.all
      (fun b => b.count == (b.codes.map Prod.snd).sum)) = true := by
  constructor
  · show totalRequestsOf resp.httpMetricsGroupedByStatus =
      ((statusCodesOf resp.httpMetricsGroupedByStatus).map
        (fun b => b.count)).sum
    have hperm :=
      (statusCodesOf_perm resp.httpMetricsGroupedByStatus).map
        (fun b => b.count)
    rw [hperm.sum_eq, List.map_map]
    show _ = ((bucketMapOf resp.httpMetricsGroupedByStatus).map
      (fun p => p.2.count)).sum
    unfold bucketMapOf
    rw [fold_sumCount resp.httpMetricsGroupedByStatus [],
      totalRequestsOf_eq]
    simp
  · refine List.all_eq_true.mpr ?_
    intro b hb
    have hmem : b ∈ (bucketMapOf resp.httpMetricsGroupedByStatus).map
        (fun p => (⟨p.1, p.2.count, p.2.codes⟩ : HttpStatusBucket)) :=
      (statusCodesOf_perm resp.httpMetricsGroupedByStatus).mem_iff.mp hb
    obtain ⟨p, hp, rfl⟩ := List.mem_map.mp hmem
    have hinv : p.2.count = (p.2.codes.map Prod.snd).sum := by
      revert hp
      unfold bucketMapOf
      exact fold_codes_inv resp.httpMetricsGroupedByStatus [] (by simp) p
    exact beq_iff_eq.mpr hinv

end Railway
